import Mathlib

/-!
# MCP79412RTC: a shallow embedding of the driver and its register protocol

The driver of `src/MCP79412RTC.cpp` talks to the chip through the Arduino
two-wire transport (`Wire`).  The transport is modelled as a recording mock:
every call the driver makes is appended to a log, and the answers of the device
(the status of each `endTransmission`, the byte of each `read`) are taken from
two scripted streams.  Bytes are natural numbers; every place where C++ converts
an `int` expression to `uint8_t`/`byte` is an explicit `% 256`.
-/

namespace MCP79412RTC

/-! ## The transport mock -/

/-- One call of the driver on the transport, with the arguments it passed. -/
inductive Op where
  | beginTransmission (address : Nat)
  | write (data : Nat)
  | endTransmission
  | requestFrom (address : Nat) (quantity : Nat)
  | read
  deriving DecidableEq

/-- State of the transport mock.  `status k` is the status code the `k`-th call of
`endTransmission` returns (a `uint8_t`, 0 = ACK), `data k` is the value the `k`-th
call of `read` returns; `log` holds the calls made so far, oldest first, `ends` and
`reads` count the calls of `endTransmission` and `read` made so far. -/
structure Wire where
  status : Nat → Nat
  data : Nat → Nat
  log : List Op
  ends : Nat
  reads : Nat

/-- `Wire.beginTransmission(address)`. -/
def Wire.beginTransmission (w : Wire) (address : Nat) : Wire :=
  { w with log := w.log ++ [Op.beginTransmission address] }

/-- `i2cWrite(data)`, the header's name for `Wire.write`: queues one byte. -/
def i2cWrite (data : Nat) (w : Wire) : Wire :=
  { w with log := w.log ++ [Op.write data] }

/-- `Wire.endTransmission()`: returns the status code and the new state. -/
def Wire.endTransmission (w : Wire) : Nat × Wire :=
  (w.status w.ends, { w with log := w.log ++ [Op.endTransmission], ends := w.ends + 1 })

/-- `Wire.requestFrom(address, quantity)`. -/
def Wire.requestFrom (w : Wire) (address quantity : Nat) : Wire :=
  { w with log := w.log ++ [Op.requestFrom address quantity] }

/-- `i2cRead()`, the header's name for `Wire.read`: returns the next byte of the
read session and the new state. -/
def i2cRead (w : Wire) : Nat × Wire :=
  (w.data w.reads, { w with log := w.log ++ [Op.read], reads := w.reads + 1 })

/-! ## Constants of the headers -/

/-- Addresses defined in `MCP79412RTC.h`, which is not part of the sources at hand:
the two bus addresses of the chip and the register offsets the driver uses.  They
are parameters of every operation. -/
structure Header where
  RTC_ADDR : Nat
  EEPROM_ADDR : Nat
  TIME_REG : Nat
  CALIB_REG : Nat
  SRAM_START_ADDR : Nat
  UNIQUE_ID_ADDR : Nat

/-- Modelled from the spec: `SRAM_SIZE` of the absent header `MCP79412RTC.h`, the
static RAM is a 64-byte window. -/
def SRAM_SIZE : Nat := 64

/-- Modelled from the spec: `EEPROM_SIZE` of the absent header, the EEPROM has 128
bytes. -/
def EEPROM_SIZE : Nat := 128

/-- Modelled from the spec: `EEPROM_PAGE_SIZE` of the absent header, an EEPROM page
has 8 bytes. -/
def EEPROM_PAGE_SIZE : Nat := 8

/-- Modelled from the spec: `I2C_BYTE_LIMIT` of the absent header, the ceiling of 31
bytes per transaction. -/
def I2C_BYTE_LIMIT : Nat := 31

/-- Modelled from the spec: `UNIQUE_ID_SIZE` of the absent header, the unique ID has
8 bytes. -/
def UNIQUE_ID_SIZE : Nat := 8

/-- Modelled from the spec: `tmNbrFields` of the absent calendar header `Time.h`,
the seven fields of a broken-down time. -/
def tmNbrFields : Nat := 7

/-- Modelled from the spec: bit number of the oscillator-start bit `ST` in the
seconds register (absent header), bit 7. -/
def ST : Nat := 7

/-- Modelled from the spec: bit number of the 12/24-hour mode bit `HR1224` in the
hours register (absent header), bit 6. -/
def HR1224 : Nat := 6

/-- Modelled from the spec: bit number of the oscillator-on bit `OSCON` in the
weekday register (absent header), bit 5. -/
def OSCON : Nat := 5

/-- Modelled from the spec: bit number of the battery-detect bit `VBAT` in the
weekday register (absent header), bit 4. -/
def VBAT : Nat := 4

/-- Modelled from the spec: bit number of the battery-enable bit `VBATEN` in the
weekday register (absent header), bit 3. -/
def VBATEN : Nat := 3

/-- Modelled from the spec: bit number of the leap-year bit `LP` in the month
register (absent header), bit 5. -/
def LP : Nat := 5

/-- The avr-libc bit-value macro `_BV(bit)`, `1 << bit`. -/
def _BV (bit : Nat) : Nat := 1 <<< bit

/-- Modelled from the spec: `tmYearToY2k(Y)` of the absent calendar header
`Time.h`, `(Y) - 30` in `int`. -/
def tmYearToY2k (Y : Int) : Int := Y - 30

/-- Modelled from the spec: `y2kYearToTm(Y)` of the absent calendar header
`Time.h`, `(Y) + 30`. -/
def y2kYearToTm (Y : Nat) : Nat := Y + 30

/-- Conversion of an `int` to `uint8_t`: reduction modulo 256. -/
def toU8 (i : Int) : Nat := (i % 256).toNat

/-- The value of `x & ~m` after its conversion to `uint8_t`, for a mask `m` below
256: of the `int` complement `~m` only the low eight bits, `255 ^ m`, survive the
conversion. -/
def andNot8 (x m : Nat) : Nat := (x % 256) &&& (255 ^^^ m)

/-- The broken-down time `tmElements_t` of the calendar library: seven `uint8_t`
fields. -/
structure tmElements_t where
  Second : Nat
  Minute : Nat
  Hour : Nat
  Wday : Nat
  Day : Nat
  Month : Nat
  Year : Nat
  deriving DecidableEq

/-! ## Numeric codec -/

/-- `MCP79412RTC::dec2bcd`: the sum is computed in `int` and returned as
`uint8_t`. -/
def dec2bcd (num : Nat) : Nat := ((num / 10 * 16) + (num % 10)) % 256

/-- `MCP79412RTC::bcd2dec`: the sum is computed in `int` and returned as
`uint8_t`. -/
def bcd2dec (num : Nat) : Nat := ((num / 16 * 10) + (num % 16)) % 256

/-! ## Register protocol and bounded memory access -/

/-- `MCP79412RTC::read`: selects the time registers, requests `tmNbrFields` bytes
and decodes them in the order second, minute, hour, weekday, day, month, year.
Every argument of `bcd2dec` is converted to `uint8_t`, and so is the year on
assignment to `tm.Year`. -/
def read (hdr : Header) (w : Wire) : tmElements_t × Wire :=
  let w := w.beginTransmission hdr.RTC_ADDR
  let w := i2cWrite hdr.TIME_REG w
  let w := w.endTransmission.2
  let w := w.requestFrom hdr.RTC_ADDR tmNbrFields
  let r0 := i2cRead w
  let r1 := i2cRead r0.2
  let r2 := i2cRead r1.2
  let r3 := i2cRead r2.2
  let r4 := i2cRead r3.2
  let r5 := i2cRead r4.2
  let r6 := i2cRead r5.2
  ({ Second := bcd2dec (andNot8 r0.1 (_BV ST))
     Minute := bcd2dec (r1.1 % 256)
     Hour := bcd2dec (andNot8 r2.1 (_BV HR1224))
     Wday := bcd2dec (andNot8 r3.1 (_BV OSCON ||| _BV VBAT ||| _BV VBATEN))
     Day := bcd2dec (r4.1 % 256)
     Month := bcd2dec (andNot8 r5.1 (_BV LP))
     Year := y2kYearToTm (bcd2dec (r6.1 % 256)) % 256 }, r6.2)

/-- `MCP79412RTC::write`: two transactions, the first stops the oscillator and
loads minute to year, the second writes the seconds with the `ST` bit. -/
def write (hdr : Header) (tm : tmElements_t) (w : Wire) : Wire :=
  let w := w.beginTransmission hdr.RTC_ADDR
  let w := i2cWrite hdr.TIME_REG w
  let w := i2cWrite 0x00 w
  let w := i2cWrite (dec2bcd tm.Minute) w
  let w := i2cWrite (dec2bcd tm.Hour) w
  let w := i2cWrite (dec2bcd tm.Wday ||| _BV VBATEN) w
  let w := i2cWrite (dec2bcd tm.Day) w
  let w := i2cWrite (dec2bcd tm.Month) w
  let w := i2cWrite (dec2bcd (toU8 (tmYearToY2k tm.Year))) w
  let w := w.endTransmission.2
  let w := w.beginTransmission hdr.RTC_ADDR
  let w := i2cWrite hdr.TIME_REG w
  let w := i2cWrite (dec2bcd tm.Second ||| _BV ST) w
  w.endTransmission.2

/-- The loop `for (byte i=0; i<nBytes; i++) i2cWrite(values[i]);`.  The buffer
`byte *values` is a map from index to byte. -/
def writeLoop (values : Nat → Nat) (nBytes : Nat) (w : Wire) : Wire :=
  (List.range nBytes).foldl (fun w i => i2cWrite (values i) w) w

/-- The loop `for (byte i=0; i<nBytes; i++) values[i] = i2cRead();`: returns the
buffer after the loop and the new state.  Each value read is stored as a byte. -/
def readLoop (values : Nat → Nat) (nBytes : Nat) (w : Wire) : (Nat → Nat) × Wire :=
  (List.range nBytes).foldl
    (fun (p : (Nat → Nat) × Wire) i =>
      let r := i2cRead p.2
      (Function.update p.1 i (r.1 % 256), r.2))
    (values, w)

/-- `MCP79412RTC::ramWrite(byte addr, byte *values, byte nBytes)`. -/
def ramWrite (hdr : Header) (addr : Nat) (values : Nat → Nat) (nBytes : Nat) (w : Wire) : Wire :=
  let w := w.beginTransmission hdr.RTC_ADDR
  let w := i2cWrite addr w
  let w := writeLoop values nBytes w
  w.endTransmission.2

/-- `MCP79412RTC::ramWrite(byte addr, byte value)`. -/
def ramWrite1 (hdr : Header) (addr value : Nat) (w : Wire) : Wire :=
  ramWrite hdr addr (fun _ => value) 1 w

/-- `MCP79412RTC::ramRead(byte addr, byte *values, byte nBytes)`: returns the buffer
after the call and the new state. -/
def ramRead (hdr : Header) (addr : Nat) (values : Nat → Nat) (nBytes : Nat) (w : Wire) :
    (Nat → Nat) × Wire :=
  let w := w.beginTransmission hdr.RTC_ADDR
  let w := i2cWrite addr w
  let w := w.endTransmission.2
  let w := w.requestFrom (hdr.RTC_ADDR % 256) nBytes
  readLoop values nBytes w

/-- `MCP79412RTC::ramRead(byte addr)`: the local `value` is uninitialised before the
call, `value0` stands for what it holds. -/
def ramRead1 (hdr : Header) (addr : Nat) (value0 : Nat) (w : Wire) : Nat × Wire :=
  let r := ramRead hdr addr (fun _ => value0) 1 w
  (r.1 0, r.2)

/-- `MCP79412RTC::sramWrite(byte addr, byte value)`: the address expression is an
`int`, converted to `byte` on the call of `ramWrite`. -/
def sramWrite1 (hdr : Header) (addr value : Nat) (w : Wire) : Wire :=
  ramWrite hdr (((addr &&& (SRAM_SIZE - 1)) + hdr.SRAM_START_ADDR) % 256) (fun _ => value) 1 w

/-- `MCP79412RTC::sramWrite(byte addr, byte *values, byte nBytes)`: the sum
`addr + nBytes` is computed in `int`. -/
def sramWrite (hdr : Header) (addr : Nat) (values : Nat → Nat) (nBytes : Nat) (w : Wire) : Wire :=
  if nBytes ≥ 1 ∧ nBytes ≤ I2C_BYTE_LIMIT ∧ (addr + nBytes) ≤ SRAM_SIZE then
    ramWrite hdr (((addr &&& (SRAM_SIZE - 1)) + hdr.SRAM_START_ADDR) % 256) values nBytes w
  else w

/-- `MCP79412RTC::sramRead(byte addr)`; `value0` is the uninitialised local. -/
def sramRead1 (hdr : Header) (addr : Nat) (value0 : Nat) (w : Wire) : Nat × Wire :=
  let r := ramRead hdr (((addr &&& (SRAM_SIZE - 1)) + hdr.SRAM_START_ADDR) % 256)
    (fun _ => value0) 1 w
  (r.1 0, r.2)

/-- `MCP79412RTC::sramRead(byte addr, byte *values, byte nBytes)`. -/
def sramRead (hdr : Header) (addr : Nat) (values : Nat → Nat) (nBytes : Nat) (w : Wire) :
    (Nat → Nat) × Wire :=
  if nBytes ≥ 1 ∧ nBytes ≤ I2C_BYTE_LIMIT ∧ (addr + nBytes) ≤ SRAM_SIZE then
    ramRead hdr (((addr &&& (SRAM_SIZE - 1)) + hdr.SRAM_START_ADDR) % 256) values nBytes w
  else (values, w)

/-- The `do ... while (txStatus != 0)` loop of `MCP79412RTC::eepromWait`, with the
`byte` counter `waitCount` as an argument.  The loop has no bound in the source; here
`fuel` bounds the number of iterations and `none` means the bound was reached. -/
def eepromWaitLoop (hdr : Header) : Nat → Nat → Wire → Option (Nat × Wire)
  | 0, _, _ => none
  | fuel + 1, waitCount, w =>
    let waitCount := (waitCount + 1) % 256
    let w := w.beginTransmission hdr.EEPROM_ADDR
    let w := i2cWrite 0 w
    let r := w.endTransmission
    if r.1 ≠ 0 then eepromWaitLoop hdr fuel waitCount r.2 else some (waitCount, r.2)

/-- `MCP79412RTC::eepromWait`: returns `waitCount` and the new state. -/
def eepromWait (hdr : Header) (fuel : Nat) (w : Wire) : Option (Nat × Wire) :=
  eepromWaitLoop hdr fuel 0 w

/-- `MCP79412RTC::eepromWrite(byte addr, byte value)`. -/
def eepromWrite1 (hdr : Header) (fuel : Nat) (addr value : Nat) (w : Wire) : Option Wire :=
  let w := w.beginTransmission hdr.EEPROM_ADDR
  let w := i2cWrite (addr &&& (EEPROM_SIZE - 1)) w
  let w := i2cWrite value w
  let w := w.endTransmission.2
  (eepromWait hdr fuel w).map Prod.snd

/-- `MCP79412RTC::eepromWrite(byte addr, byte *values, byte nBytes)`.  The address
byte is `addr & ~(EEPROM_PAGE_SIZE - 1) & (EEPROM_SIZE - 1)`; `addr` is below 256, so
of the complement only the low eight bits matter. -/
def eepromWrite (hdr : Header) (fuel : Nat) (addr : Nat) (values : Nat → Nat) (nBytes : Nat)
    (w : Wire) : Option Wire :=
  if nBytes ≥ 1 ∧ nBytes ≤ EEPROM_PAGE_SIZE then
    let w := w.beginTransmission hdr.EEPROM_ADDR
    let w := i2cWrite (andNot8 addr (EEPROM_PAGE_SIZE - 1) &&& (EEPROM_SIZE - 1)) w
    let w := writeLoop values nBytes w
    let w := w.endTransmission.2
    (eepromWait hdr fuel w).map Prod.snd
  else some w

/-- `MCP79412RTC::eepromRead(byte addr, byte *values, byte nBytes)`. -/
def eepromRead (hdr : Header) (addr : Nat) (values : Nat → Nat) (nBytes : Nat) (w : Wire) :
    (Nat → Nat) × Wire :=
  if nBytes ≥ 1 ∧ nBytes ≤ I2C_BYTE_LIMIT ∧ (addr + nBytes) ≤ EEPROM_SIZE then
    let w := w.beginTransmission hdr.EEPROM_ADDR
    let w := i2cWrite (addr &&& (EEPROM_SIZE - 1)) w
    let w := w.endTransmission.2
    let w := w.requestFrom (hdr.EEPROM_ADDR % 256) nBytes
    readLoop values nBytes w
  else (values, w)

/-- `MCP79412RTC::eepromRead(byte addr)`; `value0` is the uninitialised local. -/
def eepromRead1 (hdr : Header) (addr : Nat) (value0 : Nat) (w : Wire) : Nat × Wire :=
  let r := eepromRead hdr (addr &&& (EEPROM_SIZE - 1)) (fun _ => value0) 1 w
  (r.1 0, r.2)

/-- `MCP79412RTC::calibRead`: the register byte is read with `ramRead(CALIB_REG)`
and decoded from sign-magnitude to an `int`. -/
def calibRead (hdr : Header) (value0 : Nat) (w : Wire) : Int × Wire :=
  let r := ramRead1 hdr (hdr.CALIB_REG % 256) value0 w
  let val := r.1
  if val &&& 0x80 ≠ 0 then (-((val &&& 0x7F : Nat) : Int), r.2)
  else ((val : Int), r.2)

/-- `MCP79412RTC::calibWrite(int value)`: `abs(value)` is stored in the `byte`
`calibVal`, and `calibVal += 128` is a `byte` addition. -/
def calibWrite (hdr : Header) (value : Int) (w : Wire) : Wire :=
  if value ≥ -127 ∧ value ≤ 127 then
    let calibVal := toU8 |value|
    let calibVal := if value < 0 then (calibVal + 128) % 256 else calibVal
    ramWrite1 hdr (hdr.CALIB_REG % 256) calibVal w
  else w

/-- `MCP79412RTC::idRead`: returns the buffer after the call and the new state. -/
def idRead (hdr : Header) (uniqueID : Nat → Nat) (w : Wire) : (Nat → Nat) × Wire :=
  let w := w.beginTransmission hdr.EEPROM_ADDR
  let w := i2cWrite hdr.UNIQUE_ID_ADDR w
  let w := w.endTransmission.2
  let w := w.requestFrom hdr.EEPROM_ADDR UNIQUE_ID_SIZE
  readLoop uniqueID UNIQUE_ID_SIZE w

/-- `MCP79412RTC::oscStarted`: the `int` value `i2cRead() & _BV(ST)` is returned as a
`boolean`. -/
def oscStarted (hdr : Header) (w : Wire) : Bool × Wire :=
  let w := w.beginTransmission hdr.RTC_ADDR
  let w := i2cWrite hdr.TIME_REG w
  let w := w.endTransmission.2
  let w := w.requestFrom hdr.RTC_ADDR 1
  let r := i2cRead w
  (decide (r.1 &&& _BV ST ≠ 0), r.2)

/-! ## Vocabulary for transport logs -/

/-- The calls of one write transaction: begin, one `write` per byte, end. -/
def txn (address : Nat) (bytes : List Nat) : List Op :=
  Op.beginTransmission address :: (bytes.map Op.write ++ [Op.endTransmission])

/-- The calls of one block read of `n` bytes: the request, then `n` calls of `read`. -/
def rxn (address n : Nat) : List Op :=
  Op.requestFrom address n :: List.replicate n Op.read

/-- The calls of `k` polling transactions of `eepromWait`, each a write transaction
to the EEPROM bus address carrying the byte 0. -/
def polls (hdr : Header) (k : Nat) : List Op :=
  (List.replicate k (txn hdr.EEPROM_ADDR [0])).flatten

/-- Values of the constants of `Header` as the data sheet of the MCP79412 gives
them, for concrete examples. -/
def dataSheet : Header :=
  { RTC_ADDR := 0x6F, EEPROM_ADDR := 0x57, TIME_REG := 0x00, CALIB_REG := 0x08,
    SRAM_START_ADDR := 0x20, UNIQUE_ID_ADDR := 0xF0 }

/-- A fresh mock: nothing logged yet, the device ACKs every transaction and answers
every read with the byte `b`. -/
def fresh (b : Nat) : Wire :=
  { status := fun _ => 0, data := fun _ => b, log := [], ends := 0, reads := 0 }

/-- A fresh mock whose device answers the transaction number 1 (the first one after
the transaction number 0) with the status 2, a NACK, and ACKs every other one. -/
def busyOnce : Wire :=
  { status := fun k => if k = 1 then 2 else 0, data := fun _ => 0, log := [], ends := 0,
    reads := 0 }

/-- A fresh mock whose device answers the first `n` transactions with the status
2, a NACK, and ACKs every later one. -/
def busyFor (n : Nat) : Wire :=
  { status := fun k => if k < n then 2 else 0, data := fun _ => 0, log := [], ends := 0,
    reads := 0 }

/-! ## The register file behind the transport -/

/-- Stores the data bytes of a write transaction in consecutive registers from
`start` on: the chip increments its address pointer after every byte. -/
def storeBytes (regs : Nat → Nat) : Nat → List Nat → Nat → Nat
  | _, [] => regs
  | start, b :: bs => storeBytes (Function.update regs start b) (start + 1) bs

/-- Effect of the bytes of one write transaction on the registers: the first byte
selects the register, the others are stored from there on. -/
def deviceWrite (regs : Nat → Nat) : List Nat → Nat → Nat
  | [] => regs
  | reg :: bs => storeBytes regs reg bs

/-- Registers of the device at bus address `bus` after the calls of a log, from the
registers `regs` before them.  `queue` holds the bytes queued in the open transaction
to `bus`, if there is one; the bytes take effect at `endTransmission`.  Requests and
reads change no register. -/
def replay (bus : Nat) : List Op → Option (List Nat) → (Nat → Nat) → Nat → Nat
  | [], _, regs => regs
  | Op.beginTransmission a :: ops, _, regs =>
    replay bus ops (if a = bus then some [] else none) regs
  | Op.write b :: ops, some q, regs => replay bus ops (some (q ++ [b])) regs
  | Op.write _ :: ops, none, regs => replay bus ops none regs
  | Op.endTransmission :: ops, some q, regs => replay bus ops none (deviceWrite regs q)
  | Op.endTransmission :: ops, none, regs => replay bus ops none regs
  | Op.requestFrom _ _ :: ops, q, regs => replay bus ops q regs
  | Op.read :: ops, q, regs => replay bus ops q regs

/-- A broken-down time for concrete examples: 15 June 2024, 13:30:45, with the
weekday field 3 (years count from 1970). -/
def sampleTime : tmElements_t :=
  { Second := 45, Minute := 30, Hour := 13, Wday := 3, Day := 15, Month := 6, Year := 54 }

/-- A fresh mock whose reads are answered out of the registers that the calls of
`write hdr tm`, made on all-zero registers, leave behind: the `i`-th read returns
register `TIME_REG + i`. -/
def readBack (hdr : Header) (tm : tmElements_t) : Wire :=
  { fresh 0 with
    data := fun i =>
      replay hdr.RTC_ADDR (write hdr tm (fresh 0)).log none (fun _ => 0) (hdr.TIME_REG + i) }

/-! ## Lemmas on the loops and on bytes -/

theorem writeLoop_eq (values : Nat → Nat) (nBytes : Nat) (w : Wire) :
    writeLoop values nBytes w
      = { w with log := w.log ++ (List.range nBytes).map (fun i => Op.write (values i)) } := by
  induction nBytes with
  | zero => simp [writeLoop]
  | succ n ih =>
    unfold writeLoop at ih ⊢
    rw [List.range_succ, List.foldl_append, ih]
    simp [i2cWrite, List.append_assoc]

theorem readLoop_eq (values : Nat → Nat) (nBytes : Nat) (w : Wire) :
    readLoop values nBytes w
      = (fun i => if i < nBytes then w.data (w.reads + i) % 256 else values i,
         { w with log := w.log ++ List.replicate nBytes Op.read, reads := w.reads + nBytes }) := by
  induction nBytes with
  | zero => simp [readLoop]
  | succ n ih =>
    unfold readLoop at ih ⊢
    rw [List.range_succ, List.foldl_append, ih]
    simp only [List.foldl_cons, List.foldl_nil, i2cRead]
    refine Prod.ext ?_ ?_
    · funext i
      simp only [Function.update_apply]
      by_cases h1 : i = n
      · subst h1; simp
      · have h2 : (i < n + 1) = (i < n) := by
          apply propext; omega
        simp [h1, h2]
    · simp [List.replicate_succ', List.append_assoc, Nat.add_assoc]

theorem dec2bcd_lt (n : Nat) : dec2bcd n < 256 := Nat.mod_lt _ (by decide)

theorem bcd2dec_lt (n : Nat) : bcd2dec n < 256 := Nat.mod_lt _ (by decide)

theorem and63_eq_mod (n : Nat) : n &&& 63 = n % 64 := Nat.and_pow_two_sub_one_eq_mod n 6

theorem and127_eq_mod (n : Nat) : n &&& 127 = n % 128 := Nat.and_pow_two_sub_one_eq_mod n 7

set_option maxRecDepth 100000 in
theorem byte_or8_and8 : ∀ b : Nat, b < 256 → (b ||| 8) &&& 8 = 8 := by decide

set_option maxRecDepth 100000 in
theorem byte_or128_and128 : ∀ b : Nat, b < 256 → (b ||| 128) &&& 128 = 128 := by decide

theorem toU8_abs (v : Int) (h1 : -127 ≤ v) (h2 : v ≤ 127) : toU8 |v| = v.natAbs := by
  unfold toU8
  rw [Int.abs_eq_natAbs]
  omega

/-! ## Numeric codec: round trip -/

/-- C1: for every decimal `n` with `0 ≤ n ≤ 99`, `bcd2dec (dec2bcd n) = n`, both
functions computing on 8-bit unsigned values. -/
theorem bcd2dec_dec2bcd (n : Nat) (h : n ≤ 99) : bcd2dec (dec2bcd n) = n := by
  have hq : n / 10 ≤ 9 := by omega
  have h16 : (n / 10 * 16 + n % 10) / 16 = n / 10 := by omega
  have hm : (n / 10 * 16 + n % 10) % 16 = n % 10 := by omega
  have hlt : n / 10 * 16 + n % 10 < 256 := by omega
  unfold bcd2dec dec2bcd
  rw [Nat.mod_eq_of_lt hlt, h16, hm]
  omega

/-- C1 at `n = 59`: `dec2bcd 59 = 0x59` and back. -/
theorem bcd2dec_dec2bcd_witness : (59 ≤ 99) ∧ bcd2dec (dec2bcd 59) = 59 :=
  ⟨by decide, bcd2dec_dec2bcd 59 (by decide)⟩

/-! ## Calibration register -/

set_option maxRecDepth 100000 in
theorem signMagnitude_bits :
    ∀ m : Nat, m < 128 →
      m &&& 128 = 0 ∧ (m + 128) &&& 128 = 128 ∧ (m + 128) &&& 127 = m := by decide

theorem calibRead_fst (hdr : Header) (value0 : Nat) (r : Wire) :
    (calibRead hdr value0 r).1
      = if (r.data r.reads % 256) &&& 0x80 ≠ 0
        then -(((r.data r.reads % 256) &&& 0x7F : Nat) : Int)
        else ((r.data r.reads % 256 : Nat) : Int) := by
  simp only [calibRead, ramRead1, ramRead, readLoop_eq, Wire.beginTransmission, i2cWrite,
    Wire.endTransmission, Wire.requestFrom]
  by_cases hs : (r.data r.reads % 256) &&& 0x80 = 0 <;> simp [hs]

/-- C2: calibration round trip.  For every integer `v` with `-127 ≤ v ≤ 127`,
`calibWrite v` sends one write transaction to the calibration register carrying one
data byte `b`, and `calibRead`, run against a device whose calibration register
answers the read with that byte `b`, returns `v`. -/
theorem calib_roundtrip (hdr : Header) (v : Int) (hlo : -127 ≤ v) (hhi : v ≤ 127) (w : Wire) :
    ∃ b : Nat, b < 256 ∧
      (calibWrite hdr v w).log = w.log ++ txn hdr.RTC_ADDR [hdr.CALIB_REG % 256, b] ∧
      ∀ (value0 : Nat) (r : Wire), r.data r.reads = b → (calibRead hdr value0 r).1 = v := by
  have habs := toU8_abs v hlo hhi
  have hm : v.natAbs < 128 := by omega
  obtain ⟨hb0, hb1, hb2⟩ := signMagnitude_bits v.natAbs hm
  by_cases hneg : v < 0
  · refine ⟨v.natAbs + 128, by omega, ?_, ?_⟩
    · have hwrap : (v.natAbs + 128) % 256 = v.natAbs + 128 := by omega
      simp [calibWrite, hlo, hhi, hneg, habs, hwrap, ramWrite1, ramWrite, writeLoop_eq,
        Wire.beginTransmission, i2cWrite, Wire.endTransmission, txn]
    · intro value0 r hr
      have hwrap : (v.natAbs + 128) % 256 = v.natAbs + 128 := by omega
      rw [calibRead_fst, hr, hwrap]
      have e1 : (v.natAbs + 128) &&& 0x80 = 128 := hb1
      have e2 : (v.natAbs + 128) &&& 0x7F = v.natAbs := hb2
      rw [e1, e2]
      simp only [ne_eq, Nat.reduceEqDiff, not_false_eq_true, if_true]
      omega
  · refine ⟨v.natAbs, by omega, ?_, ?_⟩
    · simp [calibWrite, hlo, hhi, hneg, habs, ramWrite1, ramWrite, writeLoop_eq,
        Wire.beginTransmission, i2cWrite, Wire.endTransmission, txn]
    · intro value0 r hr
      have hwrap : v.natAbs % 256 = v.natAbs := by omega
      rw [calibRead_fst, hr, hwrap]
      have e0 : v.natAbs &&& 0x80 = 0 := hb0
      rw [e0]
      simp only [ne_eq, not_true_eq_false, if_false]
      omega

/-- C2 at `v = -5` on the data-sheet addresses: the byte sent is `0x85`, and reading
`0x85` back gives `-5`. -/
theorem calib_roundtrip_witness :
    (-127 : Int) ≤ -5 ∧ (-5 : Int) ≤ 127 ∧
    ∃ b : Nat, b < 256 ∧
      (calibWrite dataSheet (-5) (fresh 0)).log
        = (fresh 0).log ++ txn dataSheet.RTC_ADDR [dataSheet.CALIB_REG % 256, b] ∧
      ∀ (value0 : Nat) (r : Wire), r.data r.reads = b → (calibRead dataSheet value0 r).1 = -5 :=
  ⟨by decide, by decide, calib_roundtrip dataSheet (-5) (by decide) (by decide) (fresh 0)⟩

/-- C3: for every integer `value` with `value < -127` or `value > 127`, `calibWrite`
makes no call on the transport: the state of the transport, its log included, is the
one before the call, so no register of the device is written. -/
theorem calibWrite_out_of_range (hdr : Header) (value : Int)
    (h : value < -127 ∨ value > 127) (w : Wire) : calibWrite hdr value w = w := by
  have hg : ¬ (value ≥ -127 ∧ value ≤ 127) := by omega
  simp only [calibWrite, hg, if_false]

/-- C3 at `value = 128`. -/
theorem calibWrite_out_of_range_witness :
    ((128 : Int) < -127 ∨ (128 : Int) > 127) ∧ calibWrite dataSheet 128 (fresh 0) = fresh 0 :=
  ⟨by decide, calibWrite_out_of_range dataSheet 128 (by decide) (fresh 0)⟩

/-! ## Time registers -/

/-- C4: for every broken-down time `tm`, `write tm` adds to the log exactly two write
transactions to the RTC bus address and nothing else (no request, no read): the
first carries `TIME_REG`, `0x00`, the BCD minute, hour, weekday with the `VBATEN` bit
(bit 3), day, month and the BCD of `Year - 30` converted to a byte; the second
carries `TIME_REG` and the BCD second with `0x80`.  So the first seconds byte has
bit 7 clear, the weekday byte has bit 3 set, the second seconds byte has bit 7 set. -/
theorem write_two_transactions (hdr : Header) (tm : tmElements_t) (w : Wire) :
    (write hdr tm w).log
        = w.log
          ++ txn hdr.RTC_ADDR
              [hdr.TIME_REG, 0x00, dec2bcd tm.Minute, dec2bcd tm.Hour,
               dec2bcd tm.Wday ||| _BV VBATEN, dec2bcd tm.Day, dec2bcd tm.Month,
               dec2bcd (toU8 ((tm.Year : Int) - 30))]
          ++ txn hdr.RTC_ADDR [hdr.TIME_REG, dec2bcd tm.Second ||| 0x80]
      ∧ (write hdr tm w).ends = w.ends + 2
      ∧ (write hdr tm w).reads = w.reads
      ∧ _BV VBATEN = 8
      ∧ (0x00 &&& 0x80 = 0)
      ∧ (dec2bcd tm.Wday ||| _BV VBATEN) &&& 8 = 8
      ∧ (dec2bcd tm.Second ||| 0x80) &&& 0x80 = 0x80 := by
  refine ⟨?_, ?_, ?_, by decide, by decide, ?_, ?_⟩
  · simp [write, Wire.beginTransmission, i2cWrite, Wire.endTransmission, txn, tmYearToY2k,
      _BV, ST, List.append_assoc]
  · simp [write, Wire.beginTransmission, i2cWrite, Wire.endTransmission]
  · simp [write, Wire.beginTransmission, i2cWrite, Wire.endTransmission]
  · exact byte_or8_and8 _ (dec2bcd_lt _)
  · exact byte_or128_and128 _ (dec2bcd_lt _)

theorem read_eq (hdr : Header) (w : Wire) :
    read hdr w
      = ({ Second := bcd2dec ((w.data w.reads % 256) &&& 0x7F)
           Minute := bcd2dec (w.data (w.reads + 1) % 256)
           Hour := bcd2dec ((w.data (w.reads + 2) % 256) &&& 0xBF)
           Wday := bcd2dec ((w.data (w.reads + 3) % 256) &&& 0xC7)
           Day := bcd2dec (w.data (w.reads + 4) % 256)
           Month := bcd2dec ((w.data (w.reads + 5) % 256) &&& 0xDF)
           Year := bcd2dec (w.data (w.reads + 6) % 256) + 30 },
         { w with
           log := w.log ++ txn hdr.RTC_ADDR [hdr.TIME_REG] ++ rxn hdr.RTC_ADDR 7
           ends := w.ends + 1
           reads := w.reads + 7 }) := by
  have hy : ∀ b : Nat, (bcd2dec (b % 256) + 30) % 256 = bcd2dec (b % 256) + 30 := by
    intro b
    have hx : b % 256 < 256 := Nat.mod_lt _ (by decide)
    generalize b % 256 = x at hx
    have hq : x / 16 ≤ 15 := by omega
    have hr : x % 16 ≤ 15 := by omega
    have hs : x / 16 * 10 + x % 16 ≤ 165 := by omega
    unfold bcd2dec
    rw [Nat.mod_eq_of_lt (by omega : x / 16 * 10 + x % 16 < 256)]
    exact Nat.mod_eq_of_lt (by omega)
  simp [read, Wire.beginTransmission, i2cWrite, Wire.endTransmission, Wire.requestFrom, i2cRead,
    andNot8, _BV, ST, HR1224, OSCON, VBAT, VBATEN, LP, y2kYearToTm, tmNbrFields, txn, rxn, hy,
    List.replicate, Nat.add_assoc]

set_option maxRecDepth 100000 in
theorem weekday_mask :
    ∀ wd : Nat, wd < 8 → ∀ k : Nat, k < 8 → 1 ≤ wd →
      bcd2dec (((wd ||| (8 * k)) % 256) &&& 0xC7) = wd := by decide

set_option maxRecDepth 100000 in
theorem flip_masked :
    ∀ x : Nat, x < 256 →
      (x ^^^ 0x80) &&& 0x7F = x &&& 0x7F ∧ (x ^^^ 0x40) &&& 0xBF = x &&& 0xBF
        ∧ (x ^^^ 0x20) &&& 0xDF = x &&& 0xDF := by decide

/-- C5: `read` selects `TIME_REG`, requests 7 bytes and decodes the 7 bytes it
receives in the order second, minute, hour, weekday, day, month, year: every field is
the BCD decoding of its own byte, with bit 7 (`ST`) of the seconds byte, bit 6
(12/24) of the hour byte, bits 5, 4, 3 (`OSCON`, `VBAT`, `VBATEN`) of the weekday
byte and bit 5 (`LP`) of the month byte cleared first, and the year is `bcd2dec` of
the year byte plus 30.  So for every weekday `wd` in 1..7 and every combination
`8 * k` (`k < 8`) of bits 5, 4, 3 OR-ed into the raw weekday byte, `Wday = wd`; and
flipping bit 7 of the seconds byte, bit 6 of the hour byte or bit 5 of the month byte
leaves `Second`, `Hour`, `Month` as they are. -/
theorem read_decodes (hdr : Header) (w : Wire) :
    read hdr w
        = ({ Second := bcd2dec ((w.data w.reads % 256) &&& 0x7F)
             Minute := bcd2dec (w.data (w.reads + 1) % 256)
             Hour := bcd2dec ((w.data (w.reads + 2) % 256) &&& 0xBF)
             Wday := bcd2dec ((w.data (w.reads + 3) % 256) &&& 0xC7)
             Day := bcd2dec (w.data (w.reads + 4) % 256)
             Month := bcd2dec ((w.data (w.reads + 5) % 256) &&& 0xDF)
             Year := bcd2dec (w.data (w.reads + 6) % 256) + 30 },
           { w with
             log := w.log ++ txn hdr.RTC_ADDR [hdr.TIME_REG] ++ rxn hdr.RTC_ADDR 7
             ends := w.ends + 1
             reads := w.reads + 7 })
    ∧ (0x7F = 255 ^^^ _BV ST ∧ 0xBF = 255 ^^^ _BV HR1224
        ∧ 0xC7 = 255 ^^^ (_BV OSCON ||| _BV VBAT ||| _BV VBATEN) ∧ 0xDF = 255 ^^^ _BV LP)
    ∧ (read hdr w).2.log = w.log ++ txn hdr.RTC_ADDR [hdr.TIME_REG] ++ rxn hdr.RTC_ADDR 7
    ∧ (read hdr w).1.Minute = bcd2dec (w.data (w.reads + 1) % 256)
    ∧ (read hdr w).1.Day = bcd2dec (w.data (w.reads + 4) % 256)
    ∧ (read hdr w).1.Year = bcd2dec (w.data (w.reads + 6) % 256) + 30
    ∧ (∀ wd k : Nat, 1 ≤ wd → wd ≤ 7 → k < 8 →
        w.data (w.reads + 3) = wd ||| (8 * k) → (read hdr w).1.Wday = wd)
    ∧ (∀ r : Wire, r.data r.reads % 256 = (w.data w.reads % 256) ^^^ 0x80 →
        (read hdr r).1.Second = (read hdr w).1.Second)
    ∧ (∀ r : Wire, r.data (r.reads + 2) % 256 = (w.data (w.reads + 2) % 256) ^^^ 0x40 →
        (read hdr r).1.Hour = (read hdr w).1.Hour)
    ∧ (∀ r : Wire, r.data (r.reads + 5) % 256 = (w.data (w.reads + 5) % 256) ^^^ 0x20 →
        (read hdr r).1.Month = (read hdr w).1.Month) := by
  refine ⟨read_eq hdr w, by decide, by rw [read_eq], by rw [read_eq], by rw [read_eq],
    by rw [read_eq], ?_, ?_, ?_, ?_⟩
  · intro wd k h1 h7 hk hraw
    rw [read_eq]
    show bcd2dec ((w.data (w.reads + 3) % 256) &&& 0xC7) = wd
    rw [hraw]
    exact weekday_mask wd (by omega) k hk h1
  · intro r hr
    rw [read_eq, read_eq]
    show bcd2dec ((r.data r.reads % 256) &&& 0x7F) = bcd2dec ((w.data w.reads % 256) &&& 0x7F)
    rw [hr, (flip_masked _ (Nat.mod_lt _ (by decide))).1]
  · intro r hr
    rw [read_eq, read_eq]
    show bcd2dec ((r.data (r.reads + 2) % 256) &&& 0xBF)
      = bcd2dec ((w.data (w.reads + 2) % 256) &&& 0xBF)
    rw [hr, (flip_masked _ (Nat.mod_lt _ (by decide))).2.1]
  · intro r hr
    rw [read_eq, read_eq]
    show bcd2dec ((r.data (r.reads + 5) % 256) &&& 0xDF)
      = bcd2dec ((w.data (w.reads + 5) % 256) &&& 0xDF)
    rw [hr, (flip_masked _ (Nat.mod_lt _ (by decide))).2.2]

/-- C5 on a device that answers every read with `0x3B`: the raw weekday byte `0x3B`
(weekday 3 with bits 5, 4, 3 set) gives `Wday = 3`.  The other fields: `0x3B` decodes
to `3 * 10 + 11 = 41` for second, minute, hour and day, the month byte masked to
`0x1B` gives 21, and the year is `41 + 30`. -/
theorem read_decodes_witness :
    (1 ≤ 3) ∧ (3 ≤ 7) ∧ (7 < 8) ∧ (fresh 0x3B).data ((fresh 0x3B).reads + 3) = 3 ||| (8 * 7)
      ∧ (read dataSheet (fresh 0x3B)).1.Wday = 3
      ∧ (read dataSheet (fresh 0x3B)).1
          = { Second := 41, Minute := 41, Hour := 41, Wday := 3, Day := 41, Month := 21,
              Year := 71 } :=
  ⟨by decide, by decide, by decide, rfl,
    (read_decodes dataSheet (fresh 0x3B)).2.2.2.2.2.2.1 3 7 (by decide) (by decide) (by decide)
      rfl,
    by decide⟩

/-! ## Static RAM -/

theorem ramRead_eq (hdr : Header) (addr : Nat) (values : Nat → Nat) (nBytes : Nat) (w : Wire) :
    ramRead hdr addr values nBytes w
      = (fun i => if i < nBytes then w.data (w.reads + i) % 256 else values i,
         { w with
           log := w.log ++ txn hdr.RTC_ADDR [addr] ++ rxn (hdr.RTC_ADDR % 256) nBytes
           ends := w.ends + 1
           reads := w.reads + nBytes }) := by
  simp [ramRead, readLoop_eq, Wire.beginTransmission, i2cWrite, Wire.endTransmission,
    Wire.requestFrom, txn, rxn, List.append_assoc]

theorem ramWrite_eq (hdr : Header) (addr : Nat) (values : Nat → Nat) (nBytes : Nat) (w : Wire) :
    ramWrite hdr addr values nBytes w
      = { w with
          log := w.log ++ txn hdr.RTC_ADDR (addr :: (List.range nBytes).map values)
          ends := w.ends + 1 } := by
  simp [ramWrite, writeLoop_eq, Wire.beginTransmission, i2cWrite, Wire.endTransmission, txn,
    List.append_assoc, Function.comp_def]

theorem sramAddr_eq (hdr : Header) (hwin : hdr.SRAM_START_ADDR + 63 < 256) (addr : Nat) :
    ((addr &&& (SRAM_SIZE - 1)) + hdr.SRAM_START_ADDR) % 256
      = (addr &&& 63) + hdr.SRAM_START_ADDR := by
  have h63 : addr &&& 63 < 64 := by rw [and63_eq_mod]; exact Nat.mod_lt _ (by decide)
  show ((addr &&& 63) + hdr.SRAM_START_ADDR) % 256 = _
  exact Nat.mod_eq_of_lt (by omega)

/-- C6, the claim as stated fails at `addr = 64`: the counted read with `nBytes = 1`
makes no call at all and leaves the buffer as it was, while at `addr = 0` it reads
the byte at register `SRAM_START_ADDR`; so `addr = 64` does not read the byte of
`addr = 0`. -/
theorem sramRead_one_at_64 :
    (sramRead dataSheet 64 (fun _ => 0) 1 (fresh 0xAA)).2.log = []
    ∧ (sramRead dataSheet 64 (fun _ => 0) 1 (fresh 0xAA)).1 0 = 0
    ∧ (sramRead dataSheet 0 (fun _ => 0) 1 (fresh 0xAA)).2.log
        = txn 0x6F [(0 &&& 63) + 0x20] ++ rxn 0x6F 1
    ∧ (sramRead dataSheet 0 (fun _ => 0) 1 (fresh 0xAA)).1 0 = 0xAA := by
  refine ⟨by decide, by decide, by decide, by decide⟩

/-- C6 as amended: the counted read `sramRead addr values 1` transfers exactly when
`addr ≤ 63`; it then makes one one-byte read at register `(addr & 63) +
SRAM_START_ADDR`, which is `addr + SRAM_START_ADDR`, and stores the byte in
`values[0]`.  For `addr ≥ 64` it makes no call and leaves the buffer unchanged.
The window is assumed to lie in the byte-addressed register space. -/
theorem sramRead_one (hdr : Header) (hwin : hdr.SRAM_START_ADDR + 63 < 256) (addr : Nat)
    (values : Nat → Nat) (w : Wire) :
    (addr ≤ 63 →
      (sramRead hdr addr values 1 w).2.log
          = w.log ++ txn hdr.RTC_ADDR [(addr &&& 63) + hdr.SRAM_START_ADDR]
              ++ rxn (hdr.RTC_ADDR % 256) 1
        ∧ (addr &&& 63) + hdr.SRAM_START_ADDR = addr + hdr.SRAM_START_ADDR
        ∧ (sramRead hdr addr values 1 w).1 0 = w.data w.reads % 256)
    ∧ (64 ≤ addr → sramRead hdr addr values 1 w = (values, w)) := by
  constructor
  · intro h
    have hg : 1 ≥ 1 ∧ 1 ≤ I2C_BYTE_LIMIT ∧ addr + 1 ≤ SRAM_SIZE := by
      refine ⟨by decide, by decide, ?_⟩
      show addr + 1 ≤ 64
      omega
    have hm : addr &&& 63 = addr := by rw [and63_eq_mod]; omega
    simp only [sramRead, hg, and_self, if_true, ramRead_eq, sramAddr_eq hdr hwin]
    simp [hm]
  · intro h
    have hg : ¬ (1 ≥ 1 ∧ 1 ≤ I2C_BYTE_LIMIT ∧ addr + 1 ≤ SRAM_SIZE) := by
      intro hc
      have : addr + 1 ≤ 64 := hc.2.2
      omega
    simp only [sramRead, hg, if_false]

/-- C6 as amended, at `addr = 5` on the data-sheet addresses. -/
theorem sramRead_one_witness :
    (dataSheet.SRAM_START_ADDR + 63 < 256) ∧ (5 ≤ 63) ∧
    (sramRead dataSheet 5 (fun _ => 0) 1 (fresh 0xAA)).2.log
        = (fresh 0xAA).log ++ txn dataSheet.RTC_ADDR [(5 &&& 63) + dataSheet.SRAM_START_ADDR]
            ++ rxn (dataSheet.RTC_ADDR % 256) 1
      ∧ (5 &&& 63) + dataSheet.SRAM_START_ADDR = 5 + dataSheet.SRAM_START_ADDR
      ∧ (sramRead dataSheet 5 (fun _ => 0) 1 (fresh 0xAA)).1 0
          = (fresh 0xAA).data (fresh 0xAA).reads % 256 :=
  ⟨by decide, by decide,
    (sramRead_one dataSheet (by decide) 5 (fun _ => 0) (fresh 0xAA)).1 (by decide)⟩

/-- C7: for every address `addr`, the single-byte `sramWrite` and `sramRead` always
transfer, at register `(addr & 63) + SRAM_START_ADDR`; that register lies in the
window from `SRAM_START_ADDR` to `SRAM_START_ADDR + 63`, and addresses that agree
modulo 64 give the same calls.  The window is assumed to lie in the byte-addressed
register space. -/
theorem sram_single_byte (hdr : Header) (hwin : hdr.SRAM_START_ADDR + 63 < 256)
    (addr value value0 : Nat) (w : Wire) :
    (sramWrite1 hdr addr value w).log
        = w.log ++ txn hdr.RTC_ADDR [(addr &&& 63) + hdr.SRAM_START_ADDR, value]
    ∧ (sramRead1 hdr addr value0 w).2.log
        = w.log ++ txn hdr.RTC_ADDR [(addr &&& 63) + hdr.SRAM_START_ADDR]
            ++ rxn (hdr.RTC_ADDR % 256) 1
    ∧ (sramRead1 hdr addr value0 w).1 = w.data w.reads % 256
    ∧ hdr.SRAM_START_ADDR ≤ (addr &&& 63) + hdr.SRAM_START_ADDR
    ∧ (addr &&& 63) + hdr.SRAM_START_ADDR ≤ hdr.SRAM_START_ADDR + 63
    ∧ (∀ addr2 : Nat, addr2 % 64 = addr % 64 →
        sramWrite1 hdr addr2 value w = sramWrite1 hdr addr value w
        ∧ sramRead1 hdr addr2 value0 w = sramRead1 hdr addr value0 w) := by
  have h63 : addr &&& 63 < 64 := by rw [and63_eq_mod]; exact Nat.mod_lt _ (by decide)
  refine ⟨?_, ?_, ?_, by omega, by omega, ?_⟩
  · simp [sramWrite1, ramWrite_eq, sramAddr_eq hdr hwin]
  · simp [sramRead1, ramRead_eq, sramAddr_eq hdr hwin]
  · simp [sramRead1, ramRead_eq]
  · intro addr2 h2
    have e : addr2 &&& 63 = addr &&& 63 := by rw [and63_eq_mod, and63_eq_mod, h2]
    simp only [sramWrite1, sramRead1, sramAddr_eq hdr hwin, e, and_self]

/-- C7 on the data-sheet addresses: `addr = 64` and `addr = 0` give the same calls,
at register `0x20`. -/
theorem sram_single_byte_witness :
    (dataSheet.SRAM_START_ADDR + 63 < 256) ∧ (0 % 64 = 64 % 64) ∧
    (sramWrite1 dataSheet 0 7 (fresh 0) = sramWrite1 dataSheet 64 7 (fresh 0)
      ∧ sramRead1 dataSheet 0 0 (fresh 0) = sramRead1 dataSheet 64 0 (fresh 0)) :=
  ⟨by decide, by decide,
    (sram_single_byte dataSheet (by decide) 64 7 0 (fresh 0)).2.2.2.2.2 0 (by decide)⟩

/-! ## EEPROM -/

theorem eepromWaitLoop_ack (hdr : Header) :
    ∀ (n fuel waitCount : Nat) (w : Wire), n < fuel →
      (∀ j, j < n → w.status (w.ends + j) ≠ 0) → w.status (w.ends + n) = 0 →
      eepromWaitLoop hdr fuel waitCount w
        = some ((waitCount + (n + 1)) % 256,
            { w with log := w.log ++ polls hdr (n + 1), ends := w.ends + (n + 1) }) := by
  intro n
  induction n with
  | zero =>
    intro fuel waitCount w hf _ hack
    obtain ⟨f, rfl⟩ : ∃ f, fuel = f + 1 := ⟨fuel - 1, by omega⟩
    have hack0 : w.status w.ends = 0 := by simpa using hack
    simp [eepromWaitLoop, Wire.beginTransmission, i2cWrite, Wire.endTransmission, hack0, polls,
      txn]
  | succ n ih =>
    intro fuel waitCount w hf hnack hack
    obtain ⟨f, rfl⟩ : ∃ f, fuel = f + 1 := ⟨fuel - 1, by omega⟩
    have h0 : w.status w.ends ≠ 0 := by simpa using hnack 0 (by omega)
    have hstep : eepromWaitLoop hdr (f + 1) waitCount w
        = eepromWaitLoop hdr f ((waitCount + 1) % 256)
            { w with log := w.log ++ txn hdr.EEPROM_ADDR [0], ends := w.ends + 1 } := by
      simp [eepromWaitLoop, Wire.beginTransmission, i2cWrite, Wire.endTransmission, h0, txn]
    rw [hstep, ih f ((waitCount + 1) % 256) _ (by omega)]
    · have hc : ((waitCount + 1) % 256 + (n + 1)) % 256 = (waitCount + (n + 1 + 1)) % 256 := by
        omega
      simp [hc, polls, List.replicate_succ, List.append_assoc, Nat.add_assoc, Nat.add_comm 1]
    · intro j hj
      have := hnack (j + 1) (by omega)
      simpa [Nat.add_assoc, Nat.add_comm 1] using this
    · simpa [Nat.add_assoc, Nat.add_comm 1] using hack

set_option maxRecDepth 100000 in
theorem pageStart_byte :
    ∀ addr : Nat, addr < 256 →
      ((addr % 256) &&& (255 ^^^ 7)) &&& 127 = addr &&& 0x78
        ∧ addr &&& 0x78 = addr % 128 / 8 * 8 := by decide

/-- C8: EEPROM page rounding.  For every 8-bit `addr` and `1 ≤ nBytes ≤ 8`,
`eepromWrite` issues one write transaction to the EEPROM bus address carrying the
address byte `addr & 0x78`, which is `addr mod 128` rounded down to a multiple of 8,
then the `nBytes` data bytes in order, and continues as `eepromWait` from there.
Against a device that NACKs the first `n` polls and ACKs the next one it returns
(given more than `n` iterations) after exactly `n + 1` polling transactions. -/
theorem eepromWrite_page (hdr : Header) (addr nBytes : Nat) (values : Nat → Nat) (w : Wire)
    (n fuel : Nat) (haddr : addr < 256) (h1 : 1 ≤ nBytes) (h8 : nBytes ≤ 8) (hfuel : n < fuel)
    (hnack : ∀ j, j < n → w.status (w.ends + 1 + j) ≠ 0)
    (hack : w.status (w.ends + 1 + n) = 0) :
    (∀ f : Nat, eepromWrite hdr f addr values nBytes w
        = (eepromWait hdr f { w with
            log := w.log
              ++ txn hdr.EEPROM_ADDR ((addr &&& 0x78) :: (List.range nBytes).map values)
            ends := w.ends + 1 }).map Prod.snd)
      ∧ eepromWrite hdr fuel addr values nBytes w
        = some { w with
            log := w.log
              ++ txn hdr.EEPROM_ADDR ((addr &&& 0x78) :: (List.range nBytes).map values)
              ++ polls hdr (n + 1)
            ends := w.ends + 1 + (n + 1) }
      ∧ addr &&& 0x78 = addr % 128 / 8 * 8 := by
  obtain ⟨hp1, hp2⟩ := pageStart_byte addr haddr
  have hg : nBytes ≥ 1 ∧ nBytes ≤ EEPROM_PAGE_SIZE := ⟨h1, h8⟩
  have hpage : andNot8 addr (EEPROM_PAGE_SIZE - 1) &&& (EEPROM_SIZE - 1) = addr &&& 0x78 := hp1
  have hseq : ∀ f : Nat, eepromWrite hdr f addr values nBytes w
      = (eepromWait hdr f { w with
          log := w.log
            ++ txn hdr.EEPROM_ADDR ((addr &&& 0x78) :: (List.range nBytes).map values)
          ends := w.ends + 1 }).map Prod.snd := by
    intro f
    simp only [eepromWrite, hg, and_self, if_true, hpage]
    simp [writeLoop_eq, Wire.beginTransmission, i2cWrite, Wire.endTransmission, txn,
      List.append_assoc, Function.comp_def]
  refine ⟨hseq, ?_, hp2⟩
  rw [hseq fuel, eepromWait, eepromWaitLoop_ack hdr n fuel 0 _ hfuel hnack hack]
  simp [List.append_assoc, Nat.add_assoc]

/-- C8 at `addr = 10` with 3 bytes on the data-sheet addresses, the device busy for
the first poll: the write starts at address 8, not 10, and two polls follow. -/
theorem eepromWrite_page_witness :
    (10 < 256) ∧ (1 ≤ 3) ∧ (3 ≤ 8) ∧ (1 < 2) ∧
    (busyOnce.status (busyOnce.ends + 1 + 0) ≠ 0) ∧
    (busyOnce.status (busyOnce.ends + 1 + 1) = 0) ∧
    (eepromWrite dataSheet 2 10 (fun i => 0xA0 + i) 3 busyOnce
        = some { busyOnce with
            log := busyOnce.log
              ++ txn dataSheet.EEPROM_ADDR
                  ((10 &&& 0x78) :: (List.range 3).map (fun i => 0xA0 + i))
              ++ polls dataSheet (1 + 1)
            ends := busyOnce.ends + 1 + (1 + 1) }
      ∧ 10 &&& 0x78 = 8) :=
  ⟨by decide, by decide, by decide, by decide, by decide, by decide,
    (eepromWrite_page dataSheet 10 3 (fun i => 0xA0 + i) busyOnce 1 2 (by decide) (by decide)
      (by decide) (by decide)
      (fun j hj => by
        have hj0 : j = 0 := by omega
        subst hj0
        decide)
      (by decide)).2⟩

/-! ## Bounds rejection -/

theorem log_append_ne (l : List Op) (a : Op) (t : List Op) : l ++ a :: t ≠ l := by
  intro h
  have := congrArg List.length h
  simp at this

/-- C9: SRAM bounds rejection.  With the guard `1 ≤ nBytes ≤ 31` and
`addr + nBytes ≤ 64` (the sum taken without wrap-around), the counted `sramWrite`
and `sramRead` make a call on the transport if and only if the guard holds: under
the guard they issue the write transaction, respectively the address selection and
the block read; otherwise the transport state is unchanged and the read leaves the
buffer of the caller unchanged. -/
theorem sram_bounds (hdr : Header) (addr nBytes : Nat) (values : Nat → Nat) (w : Wire) :
    ((sramWrite hdr addr values nBytes w).log ≠ w.log
        ↔ (1 ≤ nBytes ∧ nBytes ≤ 31 ∧ addr + nBytes ≤ 64))
    ∧ ((sramRead hdr addr values nBytes w).2.log ≠ w.log
        ↔ (1 ≤ nBytes ∧ nBytes ≤ 31 ∧ addr + nBytes ≤ 64))
    ∧ ((1 ≤ nBytes ∧ nBytes ≤ 31 ∧ addr + nBytes ≤ 64) →
        (sramWrite hdr addr values nBytes w).log
            = w.log ++ txn hdr.RTC_ADDR
                ((((addr &&& 63) + hdr.SRAM_START_ADDR) % 256) :: (List.range nBytes).map values)
          ∧ (sramRead hdr addr values nBytes w).2.log
            = w.log ++ txn hdr.RTC_ADDR [((addr &&& 63) + hdr.SRAM_START_ADDR) % 256]
                ++ rxn (hdr.RTC_ADDR % 256) nBytes)
    ∧ (¬ (1 ≤ nBytes ∧ nBytes ≤ 31 ∧ addr + nBytes ≤ 64) →
        sramWrite hdr addr values nBytes w = w
          ∧ sramRead hdr addr values nBytes w = (values, w)) := by
  by_cases hg : 1 ≤ nBytes ∧ nBytes ≤ 31 ∧ addr + nBytes ≤ 64
  · have hg2 : nBytes ≥ 1 ∧ nBytes ≤ I2C_BYTE_LIMIT ∧ addr + nBytes ≤ SRAM_SIZE := hg
    have hw : (sramWrite hdr addr values nBytes w).log
        = w.log ++ txn hdr.RTC_ADDR
            ((((addr &&& 63) + hdr.SRAM_START_ADDR) % 256) :: (List.range nBytes).map values) := by
      simp only [sramWrite, hg2, and_self, if_true, ramWrite_eq]
      rfl
    have hr : (sramRead hdr addr values nBytes w).2.log
        = w.log ++ txn hdr.RTC_ADDR [((addr &&& 63) + hdr.SRAM_START_ADDR) % 256]
            ++ rxn (hdr.RTC_ADDR % 256) nBytes := by
      simp only [sramRead, hg2, and_self, if_true, ramRead_eq]
      rfl
    refine ⟨?_, ?_, fun _ => ⟨hw, hr⟩, fun hn => absurd hg hn⟩
    · rw [hw]
      exact ⟨fun _ => hg, fun _ => log_append_ne _ _ _⟩
    · rw [hr, List.append_assoc]
      exact ⟨fun _ => hg, fun _ => log_append_ne _ _ _⟩
  · have hg2 : ¬ (nBytes ≥ 1 ∧ nBytes ≤ I2C_BYTE_LIMIT ∧ addr + nBytes ≤ SRAM_SIZE) := hg
    have hw : sramWrite hdr addr values nBytes w = w := by
      simp only [sramWrite, hg2, if_false]
    have hr : sramRead hdr addr values nBytes w = (values, w) := by
      simp only [sramRead, hg2, if_false]
    refine ⟨?_, ?_, fun h => absurd h hg, fun _ => ⟨hw, hr⟩⟩
    · rw [hw]
      exact ⟨fun h => absurd rfl h, fun h => absurd h hg⟩
    · rw [hr]
      exact ⟨fun h => absurd rfl h, fun h => absurd h hg⟩

/-- C9 at `sramWrite(60, 10 bytes)`: `60 + 10 = 70 > 64`, no call is made. -/
theorem sram_bounds_witness :
    ¬ (1 ≤ 10 ∧ 10 ≤ 31 ∧ 60 + 10 ≤ 64) ∧
    (sramWrite dataSheet 60 (fun i => i) 10 (fresh 0) = fresh 0
      ∧ sramRead dataSheet 60 (fun i => i) 10 (fresh 0) = ((fun i => i), fresh 0)) :=
  ⟨by decide, (sram_bounds dataSheet 60 10 (fun i => i) (fresh 0)).2.2.2 (by decide)⟩

/-- C10: EEPROM read bounds rejection.  The counted `eepromRead` makes a call on
the transport if and only if `1 ≤ nBytes ≤ 31` and `addr + nBytes ≤ 128` (the sum
taken without wrap-around).  Under the guard it selects address `addr & 127` on the
EEPROM bus address, requests `nBytes` bytes and stores the bytes read, in order, in
`values[0 .. nBytes-1]`, leaving the rest of the buffer; otherwise the transport
state and the buffer are unchanged. -/
theorem eepromRead_bounds (hdr : Header) (addr nBytes : Nat) (values : Nat → Nat) (w : Wire) :
    ((eepromRead hdr addr values nBytes w).2.log ≠ w.log
        ↔ (1 ≤ nBytes ∧ nBytes ≤ 31 ∧ addr + nBytes ≤ 128))
    ∧ ((1 ≤ nBytes ∧ nBytes ≤ 31 ∧ addr + nBytes ≤ 128) →
        eepromRead hdr addr values nBytes w
          = (fun i => if i < nBytes then w.data (w.reads + i) % 256 else values i,
             { w with
               log := w.log ++ txn hdr.EEPROM_ADDR [addr &&& 127]
                 ++ rxn (hdr.EEPROM_ADDR % 256) nBytes
               ends := w.ends + 1
               reads := w.reads + nBytes }))
    ∧ (¬ (1 ≤ nBytes ∧ nBytes ≤ 31 ∧ addr + nBytes ≤ 128) →
        eepromRead hdr addr values nBytes w = (values, w)) := by
  by_cases hg : 1 ≤ nBytes ∧ nBytes ≤ 31 ∧ addr + nBytes ≤ 128
  · have hg2 : nBytes ≥ 1 ∧ nBytes ≤ I2C_BYTE_LIMIT ∧ addr + nBytes ≤ EEPROM_SIZE := hg
    have he : eepromRead hdr addr values nBytes w
        = (fun i => if i < nBytes then w.data (w.reads + i) % 256 else values i,
           { w with
             log := w.log ++ txn hdr.EEPROM_ADDR [addr &&& 127]
               ++ rxn (hdr.EEPROM_ADDR % 256) nBytes
             ends := w.ends + 1
             reads := w.reads + nBytes }) := by
      simp only [eepromRead, hg2, and_self, if_true, readLoop_eq]
      simp [Wire.beginTransmission, i2cWrite, Wire.endTransmission, Wire.requestFrom, txn, rxn,
        EEPROM_SIZE, List.append_assoc]
    refine ⟨?_, fun _ => he, fun hn => absurd hg hn⟩
    rw [he]
    show w.log ++ txn hdr.EEPROM_ADDR [addr &&& 127] ++ rxn (hdr.EEPROM_ADDR % 256) nBytes ≠ w.log
      ↔ _
    rw [List.append_assoc]
    exact ⟨fun _ => hg, fun _ => log_append_ne _ _ _⟩
  · have hg2 : ¬ (nBytes ≥ 1 ∧ nBytes ≤ I2C_BYTE_LIMIT ∧ addr + nBytes ≤ EEPROM_SIZE) := hg
    have he : eepromRead hdr addr values nBytes w = (values, w) := by
      simp only [eepromRead, hg2, if_false]
    refine ⟨?_, fun h => absurd h hg, fun _ => he⟩
    rw [he]
    exact ⟨fun h => absurd rfl h, fun h => absurd h hg⟩

/-- C10 at `eepromRead(120, 20)`: `120 + 20 = 140 > 128`, no call is made. -/
theorem eepromRead_bounds_witness :
    ¬ (1 ≤ 20 ∧ 20 ≤ 31 ∧ 120 + 20 ≤ 128) ∧
    eepromRead dataSheet 120 (fun i => i) 20 (fresh 0) = ((fun i => i), fresh 0) :=
  ⟨by decide, (eepromRead_bounds dataSheet 120 20 (fun i => i) (fresh 0)).2.2 (by decide)⟩

/-! ## Unique ID -/

/-- C11: `idRead` selects the unique-ID address with one write transaction to the
EEPROM bus address that carries the single byte `UNIQUE_ID_ADDR`, then makes exactly
one block read of exactly 8 bytes from the EEPROM bus address and stores the 8 bytes,
in the order read, in `uniqueID[0 .. 7]`.  The only byte it transmits is the
address-select byte: no data byte is sent to the device. -/
theorem idRead_one_block_read (hdr : Header) (uniqueID : Nat → Nat) (w : Wire) :
    idRead hdr uniqueID w
        = (fun i => if i < 8 then w.data (w.reads + i) % 256 else uniqueID i,
           { w with
             log := w.log ++ txn hdr.EEPROM_ADDR [hdr.UNIQUE_ID_ADDR] ++ rxn hdr.EEPROM_ADDR 8
             ends := w.ends + 1
             reads := w.reads + 8 })
    ∧ (∀ b : Nat,
        Op.write b ∈ txn hdr.EEPROM_ADDR [hdr.UNIQUE_ID_ADDR] ++ rxn hdr.EEPROM_ADDR 8 →
          b = hdr.UNIQUE_ID_ADDR)
    ∧ (txn hdr.EEPROM_ADDR [hdr.UNIQUE_ID_ADDR] ++ rxn hdr.EEPROM_ADDR 8).count
        (Op.requestFrom hdr.EEPROM_ADDR 8) = 1 := by
  refine ⟨?_, ?_, ?_⟩
  · simp [idRead, readLoop_eq, UNIQUE_ID_SIZE, Wire.beginTransmission, i2cWrite,
      Wire.endTransmission, Wire.requestFrom, txn, rxn, List.append_assoc]
  · intro b hb
    simpa [txn, rxn, List.replicate] using hb
  · simp [txn, rxn, List.replicate, List.count_cons]

/-! ## EEPROM busy polling -/

/-- C12, the claim as stated fails at `k = 256`: against a device that NACKs the
first 255 polls and ACKs the 256th, `eepromWait` makes 256 polling transactions and
returns 0, not 256, because `waitCount` is a `byte`. -/
theorem eepromWait_256_polls :
    eepromWait dataSheet 256 (busyFor 255)
      = some (0, { busyFor 255 with log := polls dataSheet 256, ends := 256 }) := by
  have h := eepromWaitLoop_ack dataSheet 255 256 0 (busyFor 255) (by decide)
    (fun j hj => by simp [busyFor, hj])
    (by simp [busyFor])
  simpa [eepromWait, busyFor] using h

/-- C12 as amended: for every `k = n + 1 ≥ 1`, if the transport reports a non-zero
status for the first `n` polling transactions and status 0 for the next one, then
`eepromWait` (given more than `n` iterations) performs exactly `n + 1` polling
transactions to the EEPROM bus address and returns `(n + 1) % 256`, the `byte`
counter; this is `n + 1` whenever `n + 1 ≤ 255`. -/
theorem eepromWait_counts (hdr : Header) (n fuel : Nat) (w : Wire) (hfuel : n < fuel)
    (hnack : ∀ j, j < n → w.status (w.ends + j) ≠ 0) (hack : w.status (w.ends + n) = 0) :
    eepromWait hdr fuel w
        = some ((n + 1) % 256,
            { w with log := w.log ++ polls hdr (n + 1), ends := w.ends + (n + 1) })
    ∧ (n + 1 ≤ 255 → (n + 1) % 256 = n + 1) := by
  refine ⟨?_, fun h => Nat.mod_eq_of_lt (by omega)⟩
  rw [eepromWait, eepromWaitLoop_ack hdr n fuel 0 w hfuel hnack hack]
  simp

/-- C12 as amended, on a device busy for one poll: two polls, result 2. -/
theorem eepromWait_counts_witness :
    (1 < 2) ∧ ((busyFor 1).status ((busyFor 1).ends + 0) ≠ 0)
      ∧ ((busyFor 1).status ((busyFor 1).ends + 1) = 0)
      ∧ eepromWait dataSheet 2 (busyFor 1)
          = some ((1 + 1) % 256,
              { busyFor 1 with
                log := (busyFor 1).log ++ polls dataSheet (1 + 1)
                ends := (busyFor 1).ends + (1 + 1) }) :=
  ⟨by decide, by decide, by decide,
    (eepromWait_counts dataSheet 1 2 (busyFor 1) (by decide)
      (fun j hj => by
        have hj0 : j = 0 := by omega
        subst hj0
        decide)
      (by decide)).1⟩

/-! ## Calibration decoding -/

set_option maxRecDepth 100000 in
theorem calibByte_bounds :
    ∀ b : Nat, b < 256 →
      b &&& 0x7F ≤ 127 ∧ (b &&& 0x80 = 0 → b ≤ 127) ∧ (b &&& 0x80 ≠ 0 ↔ 128 ≤ b) := by
  decide

/-- C13: for every byte `b` the calibration register answers with, `calibRead`
returns `-(b & 0x7F)` when bit 7 of `b` is set (`b & 0x80 ≠ 0`, that is `b ≥ 128`)
and `b` otherwise; the result lies in `[-127, 127]`. -/
theorem calibRead_decodes (hdr : Header) (value0 : Nat) (r : Wire) (b : Nat) (hb : b < 256)
    (hreg : r.data r.reads = b) :
    (b &&& 0x80 ≠ 0 → (calibRead hdr value0 r).1 = -((b &&& 0x7F : Nat) : Int))
    ∧ (b &&& 0x80 = 0 → (calibRead hdr value0 r).1 = (b : Int))
    ∧ (b &&& 0x80 ≠ 0 ↔ 128 ≤ b)
    ∧ -127 ≤ (calibRead hdr value0 r).1 ∧ (calibRead hdr value0 r).1 ≤ 127 := by
  obtain ⟨h7, h8, hbit⟩ := calibByte_bounds b hb
  have hmod : b % 256 = b := Nat.mod_eq_of_lt hb
  have hval := calibRead_fst hdr value0 r
  rw [hreg, hmod] at hval
  by_cases hs : b &&& 0x80 = 0
  · have hv : (calibRead hdr value0 r).1 = (b : Int) := by
      rw [hval]
      simp [hs]
    have hle := h8 hs
    refine ⟨fun hn => absurd hs hn, fun _ => hv, hbit, ?_, ?_⟩ <;> rw [hv] <;> omega
  · have hv : (calibRead hdr value0 r).1 = -((b &&& 0x7F : Nat) : Int) := by
      rw [hval]
      simp [hs]
    refine ⟨fun _ => hv, fun hz => absurd hz hs, hbit, ?_, ?_⟩ <;> rw [hv] <;> omega

/-- C13 on the byte `0x80`, the negative zero: the result is 0. -/
theorem calibRead_decodes_witness :
    (0x80 < 256) ∧ ((fresh 0x80).data (fresh 0x80).reads = 0x80) ∧ (0x80 &&& 0x80 ≠ 0)
      ∧ (calibRead dataSheet 0 (fresh 0x80)).1 = -((0x80 &&& 0x7F : Nat) : Int)
      ∧ -((0x80 &&& 0x7F : Nat) : Int) = 0 :=
  ⟨by decide, rfl, by decide,
    (calibRead_decodes dataSheet 0 (fresh 0x80) 0x80 (by decide) rfl).1 (by decide),
    by decide⟩

/-! ## Single-byte EEPROM write -/

/-- C14: for every `addr` and `value`, the single-byte `eepromWrite` issues one
write transaction to the EEPROM bus address carrying exactly `addr & 127` and
`value`, and continues as `eepromWait` from there; `addr & 127` is `addr mod 128`,
not rounded to a page start.  Against a device that NACKs the first `n` polls and
ACKs the next one it returns (given more than `n` iterations) after exactly `n + 1`
polling transactions. -/
theorem eepromWrite_single (hdr : Header) (addr value : Nat) (w : Wire) (n fuel : Nat)
    (hfuel : n < fuel) (hnack : ∀ j, j < n → w.status (w.ends + 1 + j) ≠ 0)
    (hack : w.status (w.ends + 1 + n) = 0) :
    (∀ f : Nat, eepromWrite1 hdr f addr value w
        = (eepromWait hdr f { w with
            log := w.log ++ txn hdr.EEPROM_ADDR [addr &&& 127, value]
            ends := w.ends + 1 }).map Prod.snd)
      ∧ eepromWrite1 hdr fuel addr value w
        = some { w with
            log := w.log ++ txn hdr.EEPROM_ADDR [addr &&& 127, value] ++ polls hdr (n + 1)
            ends := w.ends + 1 + (n + 1) }
      ∧ addr &&& 127 = addr % 128 := by
  have hseq : ∀ f : Nat, eepromWrite1 hdr f addr value w
      = (eepromWait hdr f { w with
          log := w.log ++ txn hdr.EEPROM_ADDR [addr &&& 127, value]
          ends := w.ends + 1 }).map Prod.snd := by
    intro f
    simp [eepromWrite1, EEPROM_SIZE, Wire.beginTransmission, i2cWrite, Wire.endTransmission,
      txn, List.append_assoc]
  refine ⟨hseq, ?_, and127_eq_mod addr⟩
  rw [hseq fuel, eepromWait, eepromWaitLoop_ack hdr n fuel 0 _ hfuel hnack hack]
  simp [List.append_assoc, Nat.add_assoc]

/-- C14 at `addr = 10`, `value = 0x5A` on the data-sheet addresses, the device busy
for the first poll: the write goes to address 10, and two polls follow. -/
theorem eepromWrite_single_witness :
    (1 < 2) ∧ (busyOnce.status (busyOnce.ends + 1 + 0) ≠ 0)
      ∧ (busyOnce.status (busyOnce.ends + 1 + 1) = 0)
      ∧ (eepromWrite1 dataSheet 2 10 0x5A busyOnce
          = some { busyOnce with
              log := busyOnce.log ++ txn dataSheet.EEPROM_ADDR [10 &&& 127, 0x5A]
                ++ polls dataSheet (1 + 1)
              ends := busyOnce.ends + 1 + (1 + 1) }
        ∧ 10 &&& 127 = 10) :=
  ⟨by decide, by decide, by decide,
    (eepromWrite_single dataSheet 10 0x5A busyOnce 1 2 (by decide)
      (fun j hj => by
        have hj0 : j = 0 := by omega
        subst hj0
        decide)
      (by decide)).2⟩

/-! ## Time write/read round trip -/

theorem write_eq (hdr : Header) (tm : tmElements_t) (w : Wire) :
    write hdr tm w
      = { w with
          log := w.log
            ++ txn hdr.RTC_ADDR
                [hdr.TIME_REG, 0x00, dec2bcd tm.Minute, dec2bcd tm.Hour,
                 dec2bcd tm.Wday ||| 8, dec2bcd tm.Day, dec2bcd tm.Month,
                 dec2bcd (toU8 ((tm.Year : Int) - 30))]
            ++ txn hdr.RTC_ADDR [hdr.TIME_REG, dec2bcd tm.Second ||| 0x80]
          ends := w.ends + 2 } := by
  simp [write, Wire.beginTransmission, i2cWrite, Wire.endTransmission, txn, tmYearToY2k,
    _BV, ST, VBATEN, List.append_assoc]

theorem replay_write (bus reg b0 b1 b2 b3 b4 b5 b6 s : Nat) (regs0 : Nat → Nat) :
    let regs := replay bus (txn bus [reg, b0, b1, b2, b3, b4, b5, b6] ++ txn bus [reg, s])
      none regs0
    regs reg = s ∧ regs (reg + 1) = b1 ∧ regs (reg + 2) = b2 ∧ regs (reg + 3) = b3
      ∧ regs (reg + 4) = b4 ∧ regs (reg + 5) = b5 ∧ regs (reg + 6) = b6 := by
  simp [replay, txn, deviceWrite, storeBytes, Function.update_apply]

set_option maxRecDepth 100000 in
theorem field_roundtrip :
    ∀ n : Nat, n < 100 →
      bcd2dec (dec2bcd n % 256) = n
      ∧ (n ≤ 59 → bcd2dec (((dec2bcd n ||| 0x80) % 256) &&& 0x7F) = n)
      ∧ (n ≤ 23 → bcd2dec ((dec2bcd n % 256) &&& 0xBF) = n)
      ∧ (1 ≤ n → n ≤ 7 → bcd2dec (((dec2bcd n ||| 8) % 256) &&& 0xC7) = n)
      ∧ (n ≤ 12 → bcd2dec ((dec2bcd n % 256) &&& 0xDF) = n) := by
  decide

/-- C15: time write/read round trip.  For every broken-down time `tm` with `Second`
and `Minute` in 0..59, `Hour` in 0..23, `Wday` in 1..7, `Day` in 1..31, `Month` in
1..12 and `Year` in 30..129: if the seven reads of `read` are answered with the
contents of the registers `TIME_REG .. TIME_REG + 6` as the calls of `write tm` leave
them (the seconds byte of the second transaction overwriting the `0x00` of the
first), then `read` returns exactly `tm`. -/
theorem write_read_roundtrip (hdr : Header) (tm : tmElements_t) (w r : Wire)
    (regs0 : Nat → Nat)
    (hS : tm.Second ≤ 59) (hMi : tm.Minute ≤ 59) (hH : tm.Hour ≤ 23)
    (hW1 : 1 ≤ tm.Wday) (hW7 : tm.Wday ≤ 7) (hD1 : 1 ≤ tm.Day) (hD31 : tm.Day ≤ 31)
    (hMo1 : 1 ≤ tm.Month) (hMo12 : tm.Month ≤ 12) (hY30 : 30 ≤ tm.Year) (hY129 : tm.Year ≤ 129)
    (hregs : ∀ i, i < 7 →
      r.data (r.reads + i)
        = replay hdr.RTC_ADDR ((write hdr tm w).log.drop w.log.length) none regs0
            (hdr.TIME_REG + i)) :
    (read hdr r).1 = tm := by
  have hlog : (write hdr tm w).log.drop w.log.length
      = txn hdr.RTC_ADDR
          [hdr.TIME_REG, 0x00, dec2bcd tm.Minute, dec2bcd tm.Hour,
           dec2bcd tm.Wday ||| 8, dec2bcd tm.Day, dec2bcd tm.Month,
           dec2bcd (toU8 ((tm.Year : Int) - 30))]
        ++ txn hdr.RTC_ADDR [hdr.TIME_REG, dec2bcd tm.Second ||| 0x80] := by
    rw [write_eq]
    simp [List.append_assoc]
  rw [hlog] at hregs
  obtain ⟨e0, e1, e2, e3, e4, e5, e6⟩ := replay_write hdr.RTC_ADDR hdr.TIME_REG 0x00
    (dec2bcd tm.Minute) (dec2bcd tm.Hour) (dec2bcd tm.Wday ||| 8) (dec2bcd tm.Day)
    (dec2bcd tm.Month) (dec2bcd (toU8 ((tm.Year : Int) - 30))) (dec2bcd tm.Second ||| 0x80) regs0
  have d0 := hregs 0 (by decide)
  have d1 := hregs 1 (by decide)
  have d2 := hregs 2 (by decide)
  have d3 := hregs 3 (by decide)
  have d4 := hregs 4 (by decide)
  have d5 := hregs 5 (by decide)
  have d6 := hregs 6 (by decide)
  rw [Nat.add_zero, Nat.add_zero, e0] at d0
  rw [e1] at d1
  rw [e2] at d2
  rw [e3] at d3
  rw [e4] at d4
  rw [e5] at d5
  rw [e6] at d6
  have hyear : toU8 ((tm.Year : Int) - 30) = tm.Year - 30 := by
    unfold toU8
    omega
  have fS := (field_roundtrip tm.Second (by omega)).2.1 hS
  have fMi := (field_roundtrip tm.Minute (by omega)).1
  have fH := (field_roundtrip tm.Hour (by omega)).2.2.1 hH
  have fW := (field_roundtrip tm.Wday (by omega)).2.2.2.1 hW1 hW7
  have fD := (field_roundtrip tm.Day (by omega)).1
  have fMo := (field_roundtrip tm.Month (by omega)).2.2.2.2 hMo12
  have fY := (field_roundtrip (tm.Year - 30) (by omega)).1
  rw [read_eq]
  show ({ Second := _, Minute := _, Hour := _, Wday := _, Day := _, Month := _, Year := _ }
    : tmElements_t) = tm
  rw [d0, d1, d2, d3, d4, d5, d6, hyear, fS, fMi, fH, fW, fD, fMo, fY]
  have hy : tm.Year - 30 + 30 = tm.Year := by omega
  rw [hy]

/-- C15 on `sampleTime` with the data-sheet addresses: reading the registers back
returns the time written. -/
theorem write_read_roundtrip_witness :
    (sampleTime.Second ≤ 59) ∧ (sampleTime.Minute ≤ 59) ∧ (sampleTime.Hour ≤ 23)
      ∧ (1 ≤ sampleTime.Wday) ∧ (sampleTime.Wday ≤ 7) ∧ (1 ≤ sampleTime.Day)
      ∧ (sampleTime.Day ≤ 31) ∧ (1 ≤ sampleTime.Month) ∧ (sampleTime.Month ≤ 12)
      ∧ (30 ≤ sampleTime.Year) ∧ (sampleTime.Year ≤ 129)
      ∧ (read dataSheet (readBack dataSheet sampleTime)).1 = sampleTime :=
  ⟨by decide, by decide, by decide, by decide, by decide, by decide, by decide, by decide,
    by decide, by decide, by decide,
    write_read_roundtrip dataSheet sampleTime (fresh 0) (readBack dataSheet sampleTime)
      (fun _ => 0) (by decide) (by decide) (by decide) (by decide) (by decide) (by decide)
      (by decide) (by decide) (by decide) (by decide) (by decide)
      (fun i _ => by
        show replay dataSheet.RTC_ADDR (write dataSheet sampleTime (fresh 0)).log none
            (fun _ => 0) (dataSheet.TIME_REG + (0 + i)) = _
        rw [Nat.zero_add]
        rfl)⟩

set_option maxRecDepth 100000 in
theorem hour_bit6_clear :
    ∀ h : Nat, h < 24 →
      dec2bcd h &&& 0x40 = 0 ∧ (dec2bcd h % 256) &&& (255 ^^^ 0x40) = dec2bcd h := by
  decide

/-- C16: `write` forces 24-hour mode.  For every `tm` with `Hour` in 0..23 the hour
byte of the first transaction of `write tm` is `dec2bcd Hour`; its bit 6, the 12/24
mode bit `HR1224`, is clear, and the mask that `read` applies to the hour byte,
`& ~_BV(HR1224)`, leaves it as it is. -/
theorem write_hour_24h (hdr : Header) (tm : tmElements_t) (w : Wire) (hH : tm.Hour ≤ 23) :
    (write hdr tm w).log
        = w.log
          ++ txn hdr.RTC_ADDR
              [hdr.TIME_REG, 0x00, dec2bcd tm.Minute, dec2bcd tm.Hour,
               dec2bcd tm.Wday ||| 8, dec2bcd tm.Day, dec2bcd tm.Month,
               dec2bcd (toU8 ((tm.Year : Int) - 30))]
          ++ txn hdr.RTC_ADDR [hdr.TIME_REG, dec2bcd tm.Second ||| 0x80]
      ∧ _BV HR1224 = 0x40
      ∧ dec2bcd tm.Hour &&& 0x40 = 0
      ∧ andNot8 (dec2bcd tm.Hour) (_BV HR1224) = dec2bcd tm.Hour := by
  obtain ⟨h1, h2⟩ := hour_bit6_clear tm.Hour (by omega)
  refine ⟨by rw [write_eq], by decide, h1, h2⟩

/-- C16 at 23 hours: the byte sent is `0x23`, bit 6 clear. -/
theorem write_hour_24h_witness :
    ((⟨0, 0, 23, 1, 1, 1, 30⟩ : tmElements_t).Hour ≤ 23)
      ∧ dec2bcd (⟨0, 0, 23, 1, 1, 1, 30⟩ : tmElements_t).Hour &&& 0x40 = 0
      ∧ dec2bcd 23 = 0x23 :=
  ⟨by decide,
    (write_hour_24h dataSheet ⟨0, 0, 23, 1, 1, 1, 30⟩ (fresh 0) (by decide)).2.2.1,
    by decide⟩

/-! ## Safety of the accepted transfers -/

/-- C17: no accepted multi-byte SRAM transfer addresses past the last byte of SRAM.
Whenever the counted `sramWrite` or `sramRead` makes a call on the transport, the
register address it starts at is `addr + SRAM_START_ADDR` (the mask `& 63` leaves
`addr` as it is), and every register it touches, `addr + SRAM_START_ADDR + i` for
`i < nBytes`, lies between `SRAM_START_ADDR` and `SRAM_START_ADDR + 63`.  The window
is assumed to lie in the byte-addressed register space. -/
theorem sram_transfer_in_window (hdr : Header) (hwin : hdr.SRAM_START_ADDR + 63 < 256)
    (addr nBytes : Nat) (values : Nat → Nat) (w : Wire) :
    ((sramWrite hdr addr values nBytes w).log ≠ w.log →
      (sramWrite hdr addr values nBytes w).log
          = w.log ++ txn hdr.RTC_ADDR
              ((addr + hdr.SRAM_START_ADDR) :: (List.range nBytes).map values)
        ∧ addr &&& 63 = addr
        ∧ ∀ i, i < nBytes →
            hdr.SRAM_START_ADDR ≤ addr + hdr.SRAM_START_ADDR + i
              ∧ addr + hdr.SRAM_START_ADDR + i ≤ hdr.SRAM_START_ADDR + 63)
    ∧ ((sramRead hdr addr values nBytes w).2.log ≠ w.log →
      (sramRead hdr addr values nBytes w).2.log
          = w.log ++ txn hdr.RTC_ADDR [addr + hdr.SRAM_START_ADDR]
              ++ rxn (hdr.RTC_ADDR % 256) nBytes
        ∧ addr &&& 63 = addr
        ∧ ∀ i, i < nBytes →
            hdr.SRAM_START_ADDR ≤ addr + hdr.SRAM_START_ADDR + i
              ∧ addr + hdr.SRAM_START_ADDR + i ≤ hdr.SRAM_START_ADDR + 63) := by
  by_cases hg : nBytes ≥ 1 ∧ nBytes ≤ I2C_BYTE_LIMIT ∧ addr + nBytes ≤ SRAM_SIZE
  · have hsum : addr + nBytes ≤ 64 := hg.2.2
    have hn1 : 1 ≤ nBytes := hg.1
    have hm : addr &&& 63 = addr := by rw [and63_eq_mod]; omega
    have hwindow : ∀ i, i < nBytes →
        hdr.SRAM_START_ADDR ≤ addr + hdr.SRAM_START_ADDR + i
          ∧ addr + hdr.SRAM_START_ADDR + i ≤ hdr.SRAM_START_ADDR + 63 := by
      intro i hi
      omega
    constructor
    · intro _
      refine ⟨?_, hm, hwindow⟩
      simp only [sramWrite, hg, and_self, if_true, ramWrite_eq, sramAddr_eq hdr hwin, hm]
    · intro _
      refine ⟨?_, hm, hwindow⟩
      simp only [sramRead, hg, and_self, if_true, ramRead_eq, sramAddr_eq hdr hwin, hm]
  · constructor
    · intro hne
      exact absurd (by simp only [sramWrite, hg, if_false]) hne
    · intro hne
      exact absurd (by simp only [sramRead, hg, if_false]) hne

/-- C17 on the data-sheet addresses at `addr = 60`, `nBytes = 4`: the write is
accepted and covers the registers `0x5C .. 0x5F`; the last one, `i = 3`, is the last
register of the window. -/
theorem sram_transfer_in_window_witness :
    (dataSheet.SRAM_START_ADDR + 63 < 256)
      ∧ ((sramWrite dataSheet 60 (fun i => i) 4 (fresh 0)).log ≠ (fresh 0).log)
      ∧ (3 < 4)
      ∧ (sramWrite dataSheet 60 (fun i => i) 4 (fresh 0)).log
          = (fresh 0).log ++ txn dataSheet.RTC_ADDR
              ((60 + dataSheet.SRAM_START_ADDR) :: (List.range 4).map (fun i => i))
      ∧ (dataSheet.SRAM_START_ADDR ≤ 60 + dataSheet.SRAM_START_ADDR + 3
          ∧ 60 + dataSheet.SRAM_START_ADDR + 3 ≤ dataSheet.SRAM_START_ADDR + 63) :=
  ⟨by decide, by decide, by decide,
    ((sram_transfer_in_window dataSheet (by decide) 60 4 (fun i => i) (fresh 0)).1
      (by decide)).1,
    ((sram_transfer_in_window dataSheet (by decide) 60 4 (fun i => i) (fresh 0)).1
      (by decide)).2.2 3 (by decide)⟩

theorem eepromWrite_eq_wait (hdr : Header) (fuel addr nBytes : Nat) (values : Nat → Nat)
    (w : Wire) (haddr : addr < 256) (h1 : 1 ≤ nBytes) (h8 : nBytes ≤ 8) :
    eepromWrite hdr fuel addr values nBytes w
      = (eepromWait hdr fuel { w with
          log := w.log
            ++ txn hdr.EEPROM_ADDR ((addr &&& 0x78) :: (List.range nBytes).map values)
          ends := w.ends + 1 }).map Prod.snd := by
  have hg : nBytes ≥ 1 ∧ nBytes ≤ EEPROM_PAGE_SIZE := ⟨h1, h8⟩
  have hpage : andNot8 addr (EEPROM_PAGE_SIZE - 1) &&& (EEPROM_SIZE - 1) = addr &&& 0x78 :=
    (pageStart_byte addr haddr).1
  simp only [eepromWrite, hg, and_self, if_true, hpage]
  simp [writeLoop_eq, Wire.beginTransmission, i2cWrite, Wire.endTransmission, txn,
    List.append_assoc, Function.comp_def]

set_option maxRecDepth 100000 in
theorem pageStart_bounds :
    ∀ addr : Nat, addr < 256 → (addr &&& 0x78) % 8 = 0 ∧ addr &&& 0x78 ≤ 120 := by decide

/-- C18: a page write never leaves its page.  With `nBytes = 0` or `nBytes > 8`,
`eepromWrite` returns at once with the transport state unchanged: no call and no
poll.  With `1 ≤ nBytes ≤ 8` it writes from `start = addr & 0x78` on, and every
address it covers, `start + i` for `i < nBytes`, lies in the page of `start` (the
same value of address / 8) and within 0..127. -/
theorem eepromWrite_in_page (hdr : Header) (addr nBytes : Nat) (values : Nat → Nat) (w : Wire)
    (haddr : addr < 256) :
    ((nBytes = 0 ∨ nBytes > 8) → ∀ fuel : Nat, eepromWrite hdr fuel addr values nBytes w = some w)
    ∧ ((1 ≤ nBytes ∧ nBytes ≤ 8) →
        (∀ fuel : Nat, eepromWrite hdr fuel addr values nBytes w
          = (eepromWait hdr fuel { w with
              log := w.log
                ++ txn hdr.EEPROM_ADDR ((addr &&& 0x78) :: (List.range nBytes).map values)
              ends := w.ends + 1 }).map Prod.snd)
        ∧ ∀ i, i < nBytes →
            ((addr &&& 0x78) + i) / 8 = (addr &&& 0x78) / 8 ∧ (addr &&& 0x78) + i ≤ 127) := by
  constructor
  · intro hbad fuel
    have hg : ¬ (nBytes ≥ 1 ∧ nBytes ≤ EEPROM_PAGE_SIZE) := by
      intro hc
      have h8 : nBytes ≤ 8 := hc.2
      have h1 : nBytes ≥ 1 := hc.1
      omega
    simp only [eepromWrite, hg, if_false]
  · intro hok
    obtain ⟨hmul, hle⟩ := pageStart_bounds addr haddr
    refine ⟨fun fuel => eepromWrite_eq_wait hdr fuel addr nBytes values w haddr hok.1 hok.2, ?_⟩
    intro i hi
    omega

/-- C18 on the data-sheet addresses: 9 bytes are refused without any call, and a
write of 8 bytes at `addr = 0x7D` starts at `0x78`; its last byte, `i = 7`, is at
`0x7F`, in the same page. -/
theorem eepromWrite_in_page_witness :
    (0x7D < 256) ∧ (9 = 0 ∨ 9 > 8) ∧ (1 ≤ 8 ∧ 8 ≤ 8) ∧ (7 < 8)
      ∧ eepromWrite dataSheet 5 0x7D (fun i => i) 9 (fresh 0) = some (fresh 0)
      ∧ (((0x7D &&& 0x78) + 7) / 8 = (0x7D &&& 0x78) / 8 ∧ (0x7D &&& 0x78) + 7 ≤ 127)
      ∧ 0x7D &&& 0x78 = 0x78 :=
  ⟨by decide, by decide, by decide, by decide,
    (eepromWrite_in_page dataSheet 0x7D 9 (fun i => i) (fresh 0) (by decide)).1 (by decide) 5,
    ((eepromWrite_in_page dataSheet 0x7D 8 (fun i => i) (fresh 0) (by decide)).2
      (by decide)).2 7 (by decide),
    by decide⟩

/-! ## Single-byte EEPROM read -/

/-- C19: the single-byte `eepromRead` never takes the no-op branch.  For every
`addr` the guard of the counted `eepromRead` holds for the address `addr & 127` and
the count 1, so the call selects EEPROM address `addr & 127`, reads exactly one byte
and returns that byte, not the unassigned local. -/
theorem eepromRead_single (hdr : Header) (addr value0 : Nat) (w : Wire) :
    (1 ≥ 1 ∧ 1 ≤ I2C_BYTE_LIMIT ∧ (addr &&& (EEPROM_SIZE - 1)) + 1 ≤ EEPROM_SIZE)
    ∧ eepromRead1 hdr addr value0 w
        = (w.data w.reads % 256,
           { w with
             log := w.log ++ txn hdr.EEPROM_ADDR [addr &&& 127]
               ++ rxn (hdr.EEPROM_ADDR % 256) 1
             ends := w.ends + 1
             reads := w.reads + 1 }) := by
  have hlt : addr &&& 127 < 128 := by rw [and127_eq_mod]; exact Nat.mod_lt _ (by decide)
  have hg : 1 ≥ 1 ∧ 1 ≤ I2C_BYTE_LIMIT ∧ (addr &&& (EEPROM_SIZE - 1)) + 1 ≤ EEPROM_SIZE := by
    refine ⟨by decide, by decide, ?_⟩
    show (addr &&& 127) + 1 ≤ 128
    omega
  have hidem : (addr &&& 127) &&& 127 = addr &&& 127 := by
    rw [and127_eq_mod (addr &&& 127)]
    exact Nat.mod_eq_of_lt hlt
  have hidem2 : (addr &&& (EEPROM_SIZE - 1)) &&& (EEPROM_SIZE - 1) = addr &&& 127 := hidem
  refine ⟨hg, ?_⟩
  simp only [eepromRead1, eepromRead, hg, and_self, if_true, readLoop_eq, hidem2]
  simp [Wire.beginTransmission, i2cWrite, Wire.endTransmission, Wire.requestFrom, txn, rxn,
    List.append_assoc]

/-! ## Numeric codec: nibbles and the inverse direction -/

/-- C20: for every `n` in 0..99, `dec2bcd n` has high nibble `n / 10` and low nibble
`n % 10`, both at most 9; and for every byte `b` whose two nibbles are both at most
9, `bcd2dec b` is in 0..99 and `dec2bcd (bcd2dec b) = b`. -/
theorem bcd_inverse (n b : Nat) (hn : n ≤ 99) (hhi : b / 16 ≤ 9) (hlo : b % 16 ≤ 9) :
    (dec2bcd n / 16 = n / 10 ∧ dec2bcd n % 16 = n % 10 ∧ n / 10 ≤ 9 ∧ n % 10 ≤ 9)
    ∧ b < 256 ∧ bcd2dec b ≤ 99 ∧ dec2bcd (bcd2dec b) = b := by
  have hq : n / 10 ≤ 9 := by omega
  have hr : n % 10 ≤ 9 := by omega
  have hlt : n / 10 * 16 + n % 10 < 256 := by omega
  have hd : dec2bcd n = n / 10 * 16 + n % 10 := Nat.mod_eq_of_lt hlt
  have hb : b < 256 := by omega
  have hlt2 : b / 16 * 10 + b % 16 < 256 := by omega
  have hbd : bcd2dec b = b / 16 * 10 + b % 16 := Nat.mod_eq_of_lt hlt2
  have h10 : (b / 16 * 10 + b % 16) / 10 = b / 16 := by omega
  have hm10 : (b / 16 * 10 + b % 16) % 10 = b % 16 := by omega
  refine ⟨⟨?_, ?_, hq, hr⟩, hb, ?_, ?_⟩
  · rw [hd]; omega
  · rw [hd]; omega
  · rw [hbd]; omega
  · rw [hbd]
    unfold dec2bcd
    rw [h10, hm10]
    omega

/-- C20 at `n = 59` and `b = 0x59`. -/
theorem bcd_inverse_witness :
    (59 ≤ 99) ∧ (0x59 / 16 ≤ 9) ∧ (0x59 % 16 ≤ 9)
      ∧ (dec2bcd 59 / 16 = 59 / 10 ∧ dec2bcd 59 % 16 = 59 % 10 ∧ 59 / 10 ≤ 9 ∧ 59 % 10 ≤ 9)
      ∧ 0x59 < 256 ∧ bcd2dec 0x59 ≤ 99 ∧ dec2bcd (bcd2dec 0x59) = 0x59 :=
  ⟨by decide, by decide, by decide, bcd_inverse 59 0x59 (by decide) (by decide) (by decide)⟩

end MCP79412RTC
